import Mathlib

/-!
Verification development for `ftee`, a many-to-many text file splitter
written in Go (`ftee.go`).  The program reads input files line by line;
a line containing a configured delimiter token as a standalone
whitespace-bounded field is a directive naming output files, every other
line is payload copied to the currently active targets.

The Go code is shallowly embedded below.  Strings are modelled as
`List Char`; the filesystem as a function from file names to optional
contents; the environment (`Env`) records which `os.Create` and which
`WriteString` calls fail.
-/

namespace Ftee

/-- File names (paths) are plain strings, modelled as `List Char`. -/
abbrev Name := List Char

/-- Whitespace predicate used by Go's `strings.Fields` (`unicode.IsSpace`),
restricted to the ASCII range. -/
def goIsSpace (c : Char) : Bool :=
  c = ' ' || c = '\t' || c = '\n' || c = Char.ofNat 11 || c = Char.ofNat 12 || c = '\r'

/-- Accumulator worker for `fields`: `acc` holds the (reversed) current run of
non-space characters.  A final run that reaches end of input is still emitted;
runs are flushed at each space character. -/
def fieldsAux : List Char → List Char → List (List Char)
  | acc, [] => if acc.isEmpty then [] else [acc.reverse]
  | acc, c :: cs =>
    if goIsSpace c then
      if acc.isEmpty then fieldsAux [] cs else acc.reverse :: fieldsAux [] cs
    else fieldsAux (c :: acc) cs

/-- Model of Go `strings.Fields`: split a line into its maximal runs of
non-whitespace characters, dropping all whitespace. -/
def fields (line : List Char) : List (List Char) := fieldsAux [] line

/-- Model of Go `strings.Contains line sub`: `sub` occurs as a contiguous
substring of the line. -/
def containsSub (sub : List Char) : List Char → Bool
  | [] => sub.isEmpty
  | c :: cs => sub.isPrefixOf (c :: cs) || containsSub sub cs

/-- The error kinds `ftee` can report (spec section 7).  `readError` stands
for a mid-stream read failure of `bufio.Reader.ReadString` other than EOF. -/
inductive FteeError where
  | unboundedDelimiter : FteeError
  | multipleDelimiters : FteeError
  | missingTargets : FteeError
  | createError : Name → FteeError
  | inputOpenError : FteeError
deriving DecidableEq

/-- The field-scanning loop of `extractFileNames` (ftee.go lines 148-170):
walk the fields tracking whether the delimiter field has been seen
(`dfound`), collecting every later field into `names`; a second delimiter
field aborts with `multipleDelimiters`; after the loop, no delimiter field
means `unboundedDelimiter` and an empty collection means `missingTargets`.
Results are `(names, error?)`, mirroring Go's `(names []string, err error)`. -/
def scanFields (delimiter : List Char) :
    List (List Char) → Bool → List (List Char) → List (List Char) × Option FteeError
  | [], dfound, names =>
    if dfound then
      if names.isEmpty then (names, some .missingTargets) else (names, none)
    else (names, some .unboundedDelimiter)
  | field :: rest, dfound, names =>
    if dfound then
      if field = delimiter then (names, some .multipleDelimiters)
      else scanFields delimiter rest dfound (names ++ [field])
    else if field = delimiter then scanFields delimiter rest true names
    else scanFields delimiter rest dfound names

/-- Model of `extractFileNames` (ftee.go lines 142-171): short-circuit to
payload `([], none)` when the line does not contain the delimiter as a
substring at all, otherwise scan the whitespace fields. -/
def extractFileNames (delimiter line : List Char) : List (List Char) × Option FteeError :=
  if containsSub delimiter line then scanFields delimiter (fields line) false []
  else ([], none)

/-- The filesystem: each name maps to the content of the file at that path,
if such a file exists. -/
abbrev Disk := Name → Option (List Char)

/-- Create or truncate the file at `n` with content `v`, as `os.Create`
followed by writes does. -/
def diskSet (d : Disk) (n : Name) (v : List Char) : Disk :=
  fun m => if m = n then some v else d m

/-- Delete the file at `n`, as `os.Remove` does. -/
def diskRemove (d : Disk) (n : Name) : Disk :=
  fun m => if m = n then none else d m

/-- Failure environment for one run: which `os.Create` calls and which
`File.WriteString` calls fail. -/
structure Env where
  createFails : Name → Bool
  writeFails : Name → Bool

/-- The run-wide router state: the key set of the global `_gOutputs` map of
opened destinations (ftee.go line 85), in insertion order, together with
the disk contents behind the open handles. -/
structure RouterState where
  outputs : List Name
  disk : Disk

/-- Model of `openOutputFiles` (ftee.go lines 180-199): for each name, skip
it if it is already a key of the outputs map, otherwise create/truncate the
file and insert the name; stop at the first creation failure, keeping the
destinations opened earlier in the same call. -/
def openOutputFiles (env : Env) (names : List Name) (st : RouterState) :
    RouterState × Option FteeError :=
  match names with
  | [] => (st, none)
  | name :: rest =>
    if name ∈ st.outputs then openOutputFiles env rest st
    else if env.createFails name then (st, some (.createError name))
    else openOutputFiles env rest ⟨st.outputs ++ [name], diskSet st.disk name []⟩

/-- Model of the payload-write loop `for _, f := range targets
{ f.WriteString(line) }` (ftee.go lines 250-252): append the line to every
active target in order.  A failing write (per `env.writeFails`) leaves the
file unchanged; the Go code discards the returned error either way. -/
def writeTargets (env : Env) (targets : List Name) (line : List Char) (d : Disk) : Disk :=
  match targets with
  | [] => d
  | t :: ts =>
    writeTargets env ts line
      (if env.writeFails t then d
       else match d t with
            | some v => diskSet d t (v ++ line)
            | none => d)

/-- Worker for `toLines`; `acc` holds the (reversed) characters of the
current line read so far. -/
def toLinesAux : List Char → List Char → List (List Char)
  | _acc, [] => []
  | acc, c :: cs =>
    if c = '\n' then (acc.reverse ++ ['\n']) :: toLinesAux [] cs
    else toLinesAux (c :: acc) cs

/-- The lines handed to the loop body by `reader.ReadString('\n')` in
`processInputFile` (ftee.go lines 236-244): each line includes its
terminating newline; a final run of characters not terminated by a newline
comes back together with `io.EOF`, upon which the loop breaks without
processing it, so no line is produced for it. -/
def toLines (s : List Char) : List (List Char) := toLinesAux [] s

/-- Model of the line loop of `processInputFile` (ftee.go lines 230-266):
classify each line; abort on a classifier error; write a payload line to
every currently active target; for a directive, open the named files
(aborting on failure) and replace the active target list by the named
handles. -/
def processLines (env : Env) (delimiter : List Char) :
    List (List Char) → RouterState → List Name → RouterState × Option FteeError
  | [], st, _targets => (st, none)
  | line :: rest, st, targets =>
    match extractFileNames delimiter line with
    | (_, some e) => (st, some e)
    | (names, none) =>
      if names.isEmpty then
        processLines env delimiter rest
          ⟨st.outputs, writeTargets env targets line st.disk⟩ targets
      else
        match openOutputFiles env names st with
        | (st2, some e) => (st2, some e)
        | (st2, none) => processLines env delimiter rest st2 names

/-- Model of the input-file loop of `main` (ftee.go lines 110-123): open
each input (`none` models a failing `os.Open`), process it, abort on the
first error.  Each `processInputFile` call starts with a fresh empty
`targets` list (ftee.go line 234), while the `_gOutputs` state persists. -/
def processFiles (env : Env) (delimiter : List Char) :
    List (Option (List Char)) → RouterState → RouterState × Option FteeError
  | [], st => (st, none)
  | none :: _rest, st => (st, some .inputOpenError)
  | some content :: rest, st =>
    match processLines env delimiter (toLines content) st [] with
    | (st2, some e) => (st2, some e)
    | (st2, none) => processFiles env delimiter rest st2

/-- Continuation of a run after one input file: abort on its error,
otherwise process the remaining input files from its final state. -/
def afterInputFile (env : Env) (delimiter : List Char)
    (r : RouterState × Option FteeError) (rest : List (Option (List Char))) :
    RouterState × Option FteeError :=
  match r with
  | (st2, some e) => (st2, some e)
  | (st2, none) => processFiles env delimiter rest st2

/-- Model of `removeOutputFiles` (ftee.go lines 211-215): delete the file
behind every opened destination. -/
def removeOutputFiles (outputs : List Name) (d : Disk) : Disk :=
  outputs.foldl diskRemove d

/-- Model of a whole run of `main` (ftee.go lines 87-124): process the
input files starting from an empty destination map over the pre-existing
disk `disk0`.  On success the output files remain and the process exits
zero (`true`); on any error the deferred cleanup closes the handles and
removes every opened destination before the process exits nonzero
(`false`). -/
def runFtee (env : Env) (delimiter : List Char)
    (inputs : List (Option (List Char))) (disk0 : Disk) : Disk × Bool :=
  match processFiles env delimiter inputs ⟨[], disk0⟩ with
  | (st, none) => (st.disk, true)
  | (st, some _) => (removeOutputFiles st.outputs st.disk, false)

/-- Environment in which no create and no write fails. -/
def envOk : Env := ⟨fun _ => false, fun _ => false⟩

/-- Environment in which every write to the file named `o` fails. -/
def envWriteFail : Env := ⟨fun _ => false, fun n => n == "o".toList⟩

/-- Environment in which creating the file named `bad` fails. -/
def envCreateFail : Env := ⟨fun n => n == "bad".toList, fun _ => false⟩

/-- A disk with no files on it. -/
def emptyDisk : Disk := fun _ => none

/-- A router state in which destination `a` is already open with content
`z` written to it earlier in the run. -/
def st9 : RouterState :=
  ⟨["a".toList], diskSet emptyDisk ("a".toList) ("z".toList)⟩

/-- Every field produced while scanning with accumulator `acc` is either the
pending run `acc.reverse` extended by a prefix of the remaining input, or an
infix of the remaining input. -/
theorem fieldsAux_substring (w : List Char) :
    ∀ (s acc : List Char), w ∈ fieldsAux acc s →
      (∃ t, t <+: s ∧ w = acc.reverse ++ t) ∨ w <:+: s := by
  intro s
  induction s with
  | nil =>
    intro acc hw
    unfold fieldsAux at hw
    by_cases hacc : acc.isEmpty
    · simp [hacc] at hw
    · simp [hacc] at hw
      exact Or.inl ⟨[], List.nil_prefix, by simp [hw]⟩
  | cons c cs ih =>
    intro acc hw
    unfold fieldsAux at hw
    by_cases hsp : goIsSpace c
    · by_cases hacc : acc.isEmpty
      · simp [hsp, hacc] at hw
        rcases ih [] hw with ⟨t, hpre, hwt⟩ | hinf
        · exact Or.inr (List.infix_cons (by simpa [hwt] using hpre.isInfix))
        · exact Or.inr (List.infix_cons hinf)
      · simp [hsp, hacc] at hw
        rcases hw with hw | hw
        · exact Or.inl ⟨[], List.nil_prefix, by simp [hw]⟩
        · rcases ih [] hw with ⟨t, hpre, hwt⟩ | hinf
          · exact Or.inr (List.infix_cons (by simpa [hwt] using hpre.isInfix))
          · exact Or.inr (List.infix_cons hinf)
    · simp [hsp] at hw
      rcases ih (c :: acc) hw with ⟨t, hpre, hwt⟩ | hinf
      · refine Or.inl ⟨c :: t, ?_, ?_⟩
        · exact List.cons_prefix_cons.mpr ⟨rfl, hpre⟩
        · simp [hwt]
      · exact Or.inr (List.infix_cons hinf)

/-- Every whitespace field of a line is a contiguous substring of the line. -/
theorem mem_fields_substring {w line : List Char} (hw : w ∈ fields line) :
    w <:+: line := by
  rcases fieldsAux_substring w line [] hw with ⟨t, hpre, hwt⟩ | hinf
  · simpa [hwt] using hpre.isInfix
  · exact hinf

/-- `containsSub` agrees with substring containment: the model of Go's
`strings.Contains` is correct. -/
theorem containsSub_iff (sub s : List Char) :
    containsSub sub s = true ↔ sub <:+: s := by
  induction s with
  | nil => simp [containsSub, List.isEmpty_iff]
  | cons c cs ih =>
    unfold containsSub
    rw [Bool.or_eq_true, List.isPrefixOf_iff_prefix, ih, List.infix_cons_iff]

/-- If the delimiter never occurs among the fields, the scan ends with
`unboundedDelimiter` and collects nothing. -/
theorem scanFields_not_mem (d : List Char) (fs : List (List Char))
    (names : List (List Char)) (h : d ∉ fs) :
    scanFields d fs false names = (names, some FteeError.unboundedDelimiter) := by
  induction fs with
  | nil => simp [scanFields]
  | cons f rest ih =>
    have hne : ¬ (f = d) := fun hfd => h (hfd ▸ List.mem_cons_self f rest)
    rw [scanFields, if_neg (by simp), if_neg hne]
    exact ih (fun hm => h (List.mem_cons_of_mem f hm))

/-- The scan skips all fields before the first delimiter field and switches
`dfound` on at the delimiter. -/
theorem scanFields_before (d : List Char) (pre rest : List (List Char))
    (names : List (List Char)) (hpre : d ∉ pre) :
    scanFields d (pre ++ d :: rest) false names = scanFields d rest true names := by
  induction pre with
  | nil => rw [List.nil_append, scanFields, if_neg (by simp), if_pos rfl]
  | cons f fs ih =>
    have hne : ¬ (f = d) := fun hfd => hpre (hfd ▸ List.mem_cons_self f fs)
    rw [List.cons_append, scanFields, if_neg (by simp), if_neg hne]
    exact ih (fun hm => hpre (List.mem_cons_of_mem f hm))

/-- After the delimiter field, a delimiter-free nonempty tail is collected
wholesale into the name list and the scan succeeds. -/
theorem scanFields_after (d : List Char) (post names : List (List Char))
    (hpost : d ∉ post) (hne : names ++ post ≠ []) :
    scanFields d post true names = (names ++ post, none) := by
  induction post generalizing names with
  | nil =>
    rw [List.append_nil] at hne ⊢
    rw [scanFields, if_pos rfl, if_neg (by simpa [List.isEmpty_iff] using hne)]
  | cons f fs ih =>
    have hfd : ¬ (f = d) := fun hfd => hpost (hfd ▸ List.mem_cons_self f fs)
    rw [scanFields, if_pos rfl, if_neg hfd,
      ih (names ++ [f]) (fun hm => hpost (List.mem_cons_of_mem f hm)) (by simp),
      List.append_cons names f fs]

/-- A second delimiter field aborts the scan with `multipleDelimiters`,
returning whatever names were collected in between. -/
theorem scanFields_second (d : List Char) (mid post names : List (List Char))
    (hmid : d ∉ mid) :
    scanFields d (mid ++ d :: post) true names =
      (names ++ mid, some FteeError.multipleDelimiters) := by
  induction mid generalizing names with
  | nil => rw [List.nil_append, scanFields, if_pos rfl, if_pos rfl, List.append_nil]
  | cons f fs ih =>
    have hfd : ¬ (f = d) := fun hfd => hmid (hfd ▸ List.mem_cons_self f fs)
    rw [List.cons_append, scanFields, if_pos rfl, if_neg hfd,
      ih (names ++ [f]) (fun hm => hmid (List.mem_cons_of_mem f hm)),
      List.append_cons names f fs]

/-- C2 (counterexample): the claim states that a line in which the
delimiter text appears only glued to non-whitespace characters (not as a
standalone whitespace-bounded field) is payload, with no names, no
directive, no error.  On the line `//FTEE somefile` with delimiter `FTEE`
the delimiter is not a standalone field, yet `extractFileNames` returns the
`unboundedDelimiter` error instead of the payload result `([], none)`. -/
theorem C2_counterexample :
    ("FTEE".toList ∉ fields ("//FTEE somefile".toList)) ∧
    extractFileNames ("FTEE".toList) ("//FTEE somefile".toList)
      = ([], some FteeError.unboundedDelimiter) :=
  ⟨by decide, by decide⟩

/-- C2 (amended): for every line that does not contain the delimiter text
as a substring at all, `extractFileNames` returns no names and no error —
the line is payload.  (Lines where the delimiter occurs only as a substring
of a larger token are instead rejected with `unboundedDelimiter`.) -/
theorem C2_payload_no_substring (delimiter line : List Char)
    (h : ¬ delimiter <:+: line) :
    extractFileNames delimiter line = ([], none) := by
  have hc : ¬ (containsSub delimiter line = true) :=
    fun hc => h ((containsSub_iff _ _).mp hc)
  rw [extractFileNames, if_neg hc]

/-- C2 (witness): the payload line of the repository's own test suite. -/
theorem C2_payload_witness :
    extractFileNames ("FTEE".toList) ("lorem ipsum sit amet ...".toList)
      = ([], none) :=
  C2_payload_no_substring _ _ (by decide)

/-- C3: for every line in which the delimiter occurs as a substring of some
whitespace-separated field but never as a standalone field, the classifier
fails with the `unboundedDelimiter` error. -/
theorem C3_unbounded_delimiter (delimiter line f : List Char)
    (hf : f ∈ fields line) (hsub : delimiter <:+: f)
    (hnot : delimiter ∉ fields line) :
    extractFileNames delimiter line = ([], some FteeError.unboundedDelimiter) := by
  have h1 : delimiter <:+: line := hsub.trans (mem_fields_substring hf)
  have h2 : containsSub delimiter line = true := (containsSub_iff _ _).mpr h1
  rw [extractFileNames, if_pos h2]
  exact scanFields_not_mem delimiter (fields line) [] hnot

/-- C3 (witness): `//FTEE somefile`, the spec's own example, where the
delimiter is glued to the comment marker. -/
theorem C3_witness :
    extractFileNames ("FTEE".toList) ("//FTEE somefile".toList)
      = ([], some FteeError.unboundedDelimiter) :=
  C3_unbounded_delimiter _ _ ("//FTEE".toList) (by decide)
    ⟨"//".toList, [], by decide⟩ (by decide)

/-- C6: for every line whose whitespace fields contain exactly one
occurrence of the delimiter, followed by at least one further field, the
classifier succeeds with exactly the fields after the delimiter, in order
with duplicates preserved; the fields before the delimiter do not occur in
the result. -/
theorem C6_directive_names (delimiter line : List Char) (pre post : List (List Char))
    (hsplit : fields line = pre ++ delimiter :: post)
    (hpre : delimiter ∉ pre) (hpost : delimiter ∉ post) (hne : post ≠ []) :
    extractFileNames delimiter line = (post, none) := by
  have hmem : delimiter ∈ fields line := by
    rw [hsplit]; exact List.mem_append_right _ (List.mem_cons_self _ _)
  have h2 : containsSub delimiter line = true :=
    (containsSub_iff _ _).mpr (mem_fields_substring hmem)
  rw [extractFileNames, if_pos h2, hsplit, scanFields_before _ _ _ _ hpre,
    scanFields_after _ _ _ hpost (by simpa using hne), List.nil_append]

/-- C6 (witness): a duplicate name is preserved and the leading commentary
is dropped. -/
theorem C6_witness :
    extractFileNames ("FTEE".toList) ("// FTEE a.txt b.txt a.txt".toList)
      = (["a.txt".toList, "b.txt".toList, "a.txt".toList], none) :=
  C6_directive_names _ _ ["//".toList]
    ["a.txt".toList, "b.txt".toList, "a.txt".toList]
    (by decide) (by decide) (by decide) (by decide)

/-- C7: a second standalone delimiter field aborts classification with the
`multipleDelimiters` error, whatever names were collected in between. -/
theorem C7_multiple_delimiters (delimiter line : List Char)
    (pre mid post : List (List Char))
    (hsplit : fields line = pre ++ delimiter :: (mid ++ delimiter :: post))
    (hpre : delimiter ∉ pre) (hmid : delimiter ∉ mid) :
    extractFileNames delimiter line = (mid, some FteeError.multipleDelimiters) := by
  have hmem : delimiter ∈ fields line := by
    rw [hsplit]; exact List.mem_append_right _ (List.mem_cons_self _ _)
  have h2 : containsSub delimiter line = true :=
    (containsSub_iff _ _).mpr (mem_fields_substring hmem)
  rw [extractFileNames, if_pos h2, hsplit, scanFields_before _ _ _ _ hpre,
    scanFields_second _ _ _ _ hmid, List.nil_append]

/-- C7 (witness): the spec's example `// FTEE foo.bar FTEE baz.txt`. -/
theorem C7_witness :
    extractFileNames ("FTEE".toList) ("// FTEE foo.bar FTEE baz.txt".toList)
      = (["foo.bar".toList], some FteeError.multipleDelimiters) :=
  C7_multiple_delimiters _ _ ["//".toList] ["foo.bar".toList] ["baz.txt".toList]
    (by decide) (by decide) (by decide)

/-- C8: a standalone delimiter field with no field after it yields the
`missingTargets` error. -/
theorem C8_missing_targets (delimiter line : List Char) (pre : List (List Char))
    (hsplit : fields line = pre ++ [delimiter]) (hpre : delimiter ∉ pre) :
    extractFileNames delimiter line = ([], some FteeError.missingTargets) := by
  have hmem : delimiter ∈ fields line := by
    rw [hsplit]; exact List.mem_append_right _ (List.mem_cons_self _ _)
  have h2 : containsSub delimiter line = true :=
    (containsSub_iff _ _).mpr (mem_fields_substring hmem)
  rw [extractFileNames, if_pos h2, hsplit, scanFields_before _ _ _ _ hpre]
  rfl

/-- C8 (witness): the spec's example `// FTEE`. -/
theorem C8_witness :
    extractFileNames ("FTEE".toList) ("// FTEE".toList)
      = ([], some FteeError.missingTargets) :=
  C8_missing_targets _ _ ["//".toList] (by decide) (by decide)

/-- `openOutputFiles` never disturbs an already-opened destination: the
name stays in the map and its file content is untouched, whatever the
outcome of the call. -/
theorem openOutputFiles_preserves (env : Env) (names : List Name) :
    ∀ (st st2 : RouterState) (r : Option FteeError),
      openOutputFiles env names st = (st2, r) →
      ∀ n ∈ st.outputs, n ∈ st2.outputs ∧ st2.disk n = st.disk n := by
  induction names with
  | nil =>
    intro st st2 r h n hn
    simp only [openOutputFiles] at h
    cases h
    exact ⟨hn, rfl⟩
  | cons name rest ih =>
    intro st st2 r h n hn
    simp only [openOutputFiles] at h
    by_cases hmem : name ∈ st.outputs
    · rw [if_pos hmem] at h
      exact ih st st2 r h n hn
    · rw [if_neg hmem] at h
      by_cases hcf : env.createFails name = true
      · rw [if_pos hcf] at h
        cases h
        exact ⟨hn, rfl⟩
      · rw [if_neg hcf] at h
        have hne : n ≠ name := fun he => hmem (he ▸ hn)
        have h2 := ih _ st2 r h n (List.mem_append_left _ hn)
        refine ⟨h2.1, ?_⟩
        rw [h2.2]
        show diskSet st.disk name [] n = st.disk n
        simp only [diskSet, if_neg hne]

/-- Every name in the map after a call of `openOutputFiles` was either
already in the map or among the names passed to the call. -/
theorem openOutputFiles_subset (env : Env) (names : List Name) :
    ∀ (st st2 : RouterState) (r : Option FteeError),
      openOutputFiles env names st = (st2, r) →
      ∀ m ∈ st2.outputs, m ∈ st.outputs ∨ m ∈ names := by
  induction names with
  | nil =>
    intro st st2 r h m hm
    simp only [openOutputFiles] at h
    cases h
    exact Or.inl hm
  | cons name rest ih =>
    intro st st2 r h m hm
    simp only [openOutputFiles] at h
    by_cases hmem : name ∈ st.outputs
    · rw [if_pos hmem] at h
      rcases ih st st2 r h m hm with h1 | h1
      · exact Or.inl h1
      · exact Or.inr (List.mem_cons_of_mem _ h1)
    · rw [if_neg hmem] at h
      by_cases hcf : env.createFails name = true
      · rw [if_pos hcf] at h
        cases h
        exact Or.inl hm
      · rw [if_neg hcf] at h
        rcases ih _ st2 r h m hm with h1 | h1
        · rcases List.mem_append.mp h1 with h2 | h2
          · exact Or.inl h2
          · exact Or.inr ((List.mem_singleton.mp h2) ▸ List.mem_cons_self _ _)
        · exact Or.inr (List.mem_cons_of_mem _ h1)

/-- On a successful call, every name that was not yet in the map ends up in
the map with its file created in truncate mode (empty content). -/
theorem openOutputFiles_creates (env : Env) (names : List Name) :
    ∀ (st st2 : RouterState),
      openOutputFiles env names st = (st2, none) →
      ∀ m ∈ names, m ∉ st.outputs → m ∈ st2.outputs ∧ st2.disk m = some [] := by
  induction names with
  | nil =>
    intro st st2 _h m hm
    cases hm
  | cons name rest ih =>
    intro st st2 h m hm hnm
    simp only [openOutputFiles] at h
    by_cases hmem : name ∈ st.outputs
    · rw [if_pos hmem] at h
      rcases List.mem_cons.mp hm with he | hr
      · subst he
        exact absurd hmem hnm
      · exact ih st st2 h m hr hnm
    · rw [if_neg hmem] at h
      by_cases hcf : env.createFails name = true
      · rw [if_pos hcf] at h
        simp at h
      · rw [if_neg hcf] at h
        by_cases hm2 : m = name
        · subst hm2
          have hpres := openOutputFiles_preserves env rest _ st2 none h m
            (List.mem_append_right _ (List.mem_cons_self _ _))
          refine ⟨hpres.1, ?_⟩
          rw [hpres.2]
          show diskSet st.disk m [] m = some []
          simp [diskSet]
        · have hr : m ∈ rest := by
            rcases List.mem_cons.mp hm with he | hr
            · exact absurd he hm2
            · exact hr
          have hnm2 : m ∉ st.outputs ++ [name] := by
            intro hx
            rcases List.mem_append.mp hx with hx2 | hx2
            · exact hnm hx2
            · exact hm2 (List.mem_singleton.mp hx2)
          exact ih _ st2 h m hr hnm2

/-- C9: `openOutputFiles` is idempotent per destination name within a run.
On a successful call: every name already in the destination map keeps its
handle and its previously written disk content undisturbed (no reopen, no
truncation); the map gains only names passed to the call; and every passed
name not yet in the map is inserted with its file created in
truncate/create mode (content reset to empty). -/
theorem C9_openOutputFiles_idempotent (env : Env) (names : List Name)
    (st st2 : RouterState) (h : openOutputFiles env names st = (st2, none)) :
    (∀ n ∈ st.outputs, n ∈ st2.outputs ∧ st2.disk n = st.disk n) ∧
    (∀ m ∈ st2.outputs, m ∈ st.outputs ∨ m ∈ names) ∧
    (∀ m ∈ names, m ∉ st.outputs → m ∈ st2.outputs ∧ st2.disk m = some []) :=
  ⟨fun n hn => openOutputFiles_preserves env names st st2 none h n hn,
   fun m hm => openOutputFiles_subset env names st st2 none h m hm,
   fun m hm hnm => openOutputFiles_creates env names st st2 h m hm hnm⟩

/-- C9 (witness): re-passing the already-open name `a` (while also opening
the new name `b`) leaves the content previously written to `a` untouched. -/
theorem C9_witness :
    ((openOutputFiles envOk ["a".toList, "b".toList] st9).1).disk ("a".toList)
      = st9.disk ("a".toList) :=
  ((C9_openOutputFiles_idempotent envOk ["a".toList, "b".toList] st9
      (openOutputFiles envOk ["a".toList, "b".toList] st9).1 rfl).1
    ("a".toList) (by decide)).2

/-- Removal never resurrects a file: a name absent from the disk stays
absent after the cleanup loop. -/
theorem removeOutputFiles_none (outputs : List Name) :
    ∀ (d : Disk) (n : Name), d n = none → removeOutputFiles outputs d n = none := by
  induction outputs with
  | nil =>
    intro d n h
    exact h
  | cons k ks ih =>
    intro d n h
    show removeOutputFiles ks (diskRemove d k) n = none
    refine ih _ n ?_
    by_cases hk : n = k
    · simp only [diskRemove, if_pos hk]
    · simp only [diskRemove, if_neg hk]
      exact h

/-- After the cleanup loop, no file behind any opened destination remains. -/
theorem removeOutputFiles_mem (outputs : List Name) :
    ∀ (d : Disk) (n : Name), n ∈ outputs → removeOutputFiles outputs d n = none := by
  induction outputs with
  | nil =>
    intro d n h
    cases h
  | cons k ks ih =>
    intro d n h
    show removeOutputFiles ks (diskRemove d k) n = none
    by_cases hk : n ∈ ks
    · exact ih _ n hk
    · have hnk : n = k := by
        rcases List.mem_cons.mp h with h1 | h1
        · exact h1
        · exact absurd h1 hk
      exact removeOutputFiles_none ks _ n (by simp only [diskRemove, if_pos hnk])

/-- C5: whenever a run fails with any fatal error, the deferred cleanup of
`main` runs `removeOutputFiles` on the final destination map before the
process reports the error with a nonzero status, and afterwards no file
behind any destination opened during the run remains on disk.  The
destination map starts empty, only `openOutputFiles` ever extends it, so
`st.outputs` is exactly the set of destinations opened during the run,
including ones created and written before the failing line. -/
theorem C5_failure_cleanup (env : Env) (delimiter : List Char)
    (inputs : List (Option (List Char))) (disk0 : Disk)
    (st : RouterState) (e : FteeError)
    (h : processFiles env delimiter inputs ⟨[], disk0⟩ = (st, some e)) :
    runFtee env delimiter inputs disk0
        = (removeOutputFiles st.outputs st.disk, false) ∧
    (∀ n ∈ st.outputs, removeOutputFiles st.outputs st.disk n = none) := by
  constructor
  · unfold runFtee
    rw [h]
  · intro n hn
    exact removeOutputFiles_mem st.outputs st.disk n hn

/-- C5 (witness): a run in which `good` is created and written before the
creation of `bad` fails exits with failure and leaves no file at `good`. -/
theorem C5_witness :
    (runFtee envCreateFail ("FTEE".toList)
        [some ("FTEE good\nx\nFTEE bad\n".toList)] emptyDisk).2 = false ∧
    (runFtee envCreateFail ("FTEE".toList)
        [some ("FTEE good\nx\nFTEE bad\n".toList)] emptyDisk).1 ("good".toList)
      = none := by
  have h := C5_failure_cleanup envCreateFail ("FTEE".toList)
      [some ("FTEE good\nx\nFTEE bad\n".toList)] emptyDisk
      (processFiles envCreateFail ("FTEE".toList)
        [some ("FTEE good\nx\nFTEE bad\n".toList)] ⟨[], emptyDisk⟩).1
      (FteeError.createError ("bad".toList)) rfl
  refine ⟨?_, ?_⟩
  · rw [h.1]
  · rw [h.1]
    exact h.2 ("good".toList) (by decide)

/-- A stream with no newline produces no line at all for the loop body,
whatever has been accumulated. -/
theorem toLinesAux_no_newline (tail : List Char) (h : '\n' ∉ tail) :
    ∀ acc, toLinesAux acc tail = [] := by
  induction tail with
  | nil =>
    intro _acc
    rfl
  | cons c cs ih =>
    intro acc
    have hc : ¬ (c = '\n') := fun he => h (he ▸ List.mem_cons_self c cs)
    simp only [toLinesAux, if_neg hc]
    exact ih (fun hm => h (List.mem_cons_of_mem c hm)) _

/-- Appending an unterminated tail to a stream changes none of the lines
handed to the loop body. -/
theorem toLines_append_no_newline (s tail : List Char) (h : '\n' ∉ tail) :
    ∀ acc, toLinesAux acc (s ++ tail) = toLinesAux acc s := by
  induction s with
  | nil =>
    intro acc
    rw [List.nil_append]
    exact toLinesAux_no_newline tail h acc
  | cons c cs ih =>
    intro acc
    rw [List.cons_append]
    by_cases hc : c = '\n'
    · simp only [toLinesAux, if_pos hc, ih]
    · simp only [toLinesAux, if_neg hc, ih]

/-- C10: a final line not terminated by a newline is silently dropped.
`ReadString` returns it together with `io.EOF` and the loop breaks without
processing it, so it is neither classified nor written and no error is
reported: the whole run behaves as if the unterminated tail were absent. -/
theorem C10_unterminated_final_line_dropped (env : Env) (delimiter : List Char)
    (s tail : List Char) (hnl : '\n' ∉ tail)
    (files : List (Option (List Char))) (st : RouterState) :
    toLines (s ++ tail) = toLines s ∧
    processFiles env delimiter (some (s ++ tail) :: files) st
      = processFiles env delimiter (some s :: files) st := by
  have h1 : toLines (s ++ tail) = toLines s := toLines_append_no_newline s tail hnl []
  refine ⟨h1, ?_⟩
  simp only [processFiles, toLines] at h1 ⊢
  rw [h1]

/-- C10 (witness): dropping the unterminated tail `last line` gives the
same run as the stream without it. -/
theorem C10_witness :
    processFiles envOk ("FTEE".toList)
        [some ("FTEE o\nx\nlast line".toList)] ⟨[], emptyDisk⟩
      = processFiles envOk ("FTEE".toList)
        [some ("FTEE o\nx\n".toList)] ⟨[], emptyDisk⟩ :=
  (C10_unterminated_final_line_dropped envOk ("FTEE".toList) ("FTEE o\nx\n".toList)
    ("last line".toList) (by decide) [] ⟨[], emptyDisk⟩).2

/-- C1 (counterexample): the claim states that payload lines at the start
of the next input file are written to the destinations active at the end of
the previous file.  Run the model on file A `FTEE o\nx\n` (which leaves
`o` as the single active target) followed by file B `y\n`: the run
succeeds, but `o` ends with content `x\n` only — the payload line `y\n` of
file B was discarded, not appended to `o`. -/
theorem C1_counterexample :
    (runFtee envOk ("FTEE".toList)
        [some ("FTEE o\nx\n".toList), some ("y\n".toList)] emptyDisk).2 = true ∧
    (runFtee envOk ("FTEE".toList)
        [some ("FTEE o\nx\n".toList), some ("y\n".toList)] emptyDisk).1 ("o".toList)
      = some ("x\n".toList) :=
  ⟨by decide, by decide⟩

/-- C1 (amended): the destination map persists across input files, but the
active target list does not: `processInputFile` starts every input file
with a fresh empty target list, so payload lines at the start of the next
input file, before any directive in that file, are written to no
destination and leave the state unchanged — the run continues as if those
lines were absent. -/
theorem C1_targets_reset_per_file (env : Env) (delimiter : List Char)
    (content : List Char) (files : List (Option (List Char))) (st : RouterState)
    (ls rest : List (List Char))
    (hsplit : toLines content = ls ++ rest)
    (hpay : ∀ l ∈ ls, extractFileNames delimiter l = ([], none)) :
    processFiles env delimiter (some content :: files) st
      = afterInputFile env delimiter (processLines env delimiter rest st []) files := by
  have key : ∀ (ls2 : List (List Char)) (st0 : RouterState),
      (∀ l ∈ ls2, extractFileNames delimiter l = ([], none)) →
      processLines env delimiter (ls2 ++ rest) st0 []
        = processLines env delimiter rest st0 [] := by
    intro ls2
    induction ls2 with
    | nil =>
      intro st0 _
      rw [List.nil_append]
    | cons l ls2' ih =>
      intro st0 hp
      rw [List.cons_append]
      simp only [processLines, hp l (List.mem_cons_self l ls2')]
      show processLines env delimiter (ls2' ++ rest)
          ⟨st0.outputs, writeTargets env [] l st0.disk⟩ [] = _
      exact ih _ (fun l2 h2 => hp l2 (List.mem_cons_of_mem l h2))
  simp only [processFiles, hsplit, key ls st hpay]
  rcases hpl : processLines env delimiter rest st [] with ⟨st2, e⟩
  cases e <;> simp only [afterInputFile]

/-- C1 (witness): a single file starting with the payload line `y\n` is
processed exactly like the file without it, from any fresh run state. -/
theorem C1_witness :
    processFiles envOk ("FTEE".toList) [some ("y\nFTEE p\nz\n".toList)] ⟨[], emptyDisk⟩
      = afterInputFile envOk ("FTEE".toList)
          (processLines envOk ("FTEE".toList) ["FTEE p\n".toList, "z\n".toList]
            ⟨[], emptyDisk⟩ []) [] :=
  C1_targets_reset_per_file envOk ("FTEE".toList) ("y\nFTEE p\nz\n".toList) []
    ⟨[], emptyDisk⟩ ["y\n".toList] ["FTEE p\n".toList, "z\n".toList]
    (by decide) (by decide)

/-- C4 (code bug): the claim — and the program's own help text, which
promises a nonzero exit and output-file deletion on any error — says a
failing write to an active destination aborts the run.  The code at
ftee.go line 251 discards the result of `f.WriteString(line)`.  In an
environment where every write to `o` fails, the run on `FTEE o\nx\n`
still reports success and leaves `o` on disk (with the payload missing),
instead of failing and deleting it. -/
theorem C4_write_error_ignored :
    (runFtee envWriteFail ("FTEE".toList) [some ("FTEE o\nx\n".toList)] emptyDisk).2
      = true ∧
    (runFtee envWriteFail ("FTEE".toList) [some ("FTEE o\nx\n".toList)] emptyDisk).1
        ("o".toList) = some [] :=
  ⟨by decide, by decide⟩

end Ftee

section Validation
open Ftee

/-- The repository's own unit tests for `extractFileNames` (ftee_test.go),
replayed against the model. -/
example : fields ("// FTEE foo.bar baz.txt".toList) =
    ["//".toList, "FTEE".toList, "foo.bar".toList, "baz.txt".toList] := by decide

example : extractFileNames ("FTEE".toList) ("// FTEE foo.bar baz.txt".toList) =
    (["foo.bar".toList, "baz.txt".toList], none) := by decide

example : extractFileNames ("FTEE".toList) ("lorem ipsum sit amet ...".toList) =
    ([], none) := by decide

example : extractFileNames ("FTEE".toList) ("//FTEE foo.bar baz.txt".toList) =
    ([], some .unboundedDelimiter) := by decide

example : extractFileNames ("FTEE".toList) ("// FTEE foo.bar FTEE baz.txt".toList) =
    (["foo.bar".toList], some .multipleDelimiters) := by decide

example : extractFileNames ("FTEE".toList) ("// FTEE".toList) =
    ([], some .missingTargets) := by decide

/-- The end-to-end example from the program's help text and README,
replayed against the run model. -/
example :
    (runFtee envOk ("FTEE".toList)
      [some ("This is ignored\nFTEE /tmp/out1\nThis goes into out1 only.\nFTEE /tmp/out2\nThis goes into out2 only.\nFTEE /tmp/out1 /tmp/out3\nThis goes into out1 and out3.\n".toList)]
      emptyDisk).1 ("/tmp/out1".toList)
    = some ("This goes into out1 only.\nThis goes into out1 and out3.\n".toList) := by
  decide

example :
    (runFtee envOk ("FTEE".toList)
      [some ("This is ignored\nFTEE /tmp/out1\nThis goes into out1 only.\nFTEE /tmp/out2\nThis goes into out2 only.\nFTEE /tmp/out1 /tmp/out3\nThis goes into out1 and out3.\n".toList)]
      emptyDisk).1 ("/tmp/out2".toList)
    = some ("This goes into out2 only.\n".toList) := by decide

example :
    (runFtee envOk ("FTEE".toList)
      [some ("This is ignored\nFTEE /tmp/out1\nThis goes into out1 only.\nFTEE /tmp/out2\nThis goes into out2 only.\nFTEE /tmp/out1 /tmp/out3\nThis goes into out1 and out3.\n".toList)]
      emptyDisk).1 ("/tmp/out3".toList)
    = some ("This goes into out1 and out3.\n".toList) := by decide

end Validation
